import Mathlib

/-!
Verification of the deep-dream optimization core (deepdream.py):
a shallow embedding of its tensor pipeline over exact rational
arithmetic (the Gaussian kernel construction, which uses exp, is
embedded over the reals).
-/

namespace DeepDream

/-- Per-channel ImageNet mean for [0,1]-range images (IMAGENET_MEAN_1). -/
def IMAGENET_MEAN_1 (c : ℕ) : ℚ :=
  if c = 0 then 485/1000 else if c = 1 then 456/1000 else if c = 2 then 406/1000 else 0

/-- Per-channel ImageNet standard deviation for [0,1]-range images (IMAGENET_STD_1). -/
def IMAGENET_STD_1 (c : ℕ) : ℚ :=
  if c = 0 then 229/1000 else if c = 1 then 224/1000 else if c = 2 then 225/1000 else 1

/-- A 4-d tensor (batch, channel, height, width); float values modelled as rationals,
stored as a total function together with the dimensions. -/
structure T4 where
  b : ℕ
  c : ℕ
  h : ℕ
  w : ℕ
  data : ℕ → ℕ → ℕ → ℕ → ℚ

/-- Element-for-element equality of two tensors: same dimensions and same value at
every in-range index. -/
def T4.eqv (s t : T4) : Prop :=
  s.b = t.b ∧ s.c = t.c ∧ s.h = t.h ∧ s.w = t.w ∧
  ∀ bi ci i j, bi < s.b → ci < s.c → i < s.h → j < s.w →
    s.data bi ci i j = t.data bi ci i j

/-- Index arithmetic of torch.roll: output index i reads input index (i - shift) mod n. -/
def wrapIdx (n : ℕ) (s : ℤ) (i : ℕ) : ℕ := (((i : ℤ) - s) % (n : ℤ)).toNat

/-- torch.roll with shifts (hShift, wShift) on dims (2, 3) of a 4-d tensor. -/
def torchRoll (t : T4) (hShift wShift : ℤ) : T4 :=
  { t with data := fun bi ci i j =>
      t.data bi ci (wrapIdx t.h hShift i) (wrapIdx t.w wShift j) }

/-- torch.zeros_like. -/
def T4.zerosLike (t : T4) : T4 := { t with data := fun _ _ _ _ => 0 }

/-- A leaf tensor with requires_grad set: payload data plus accumulated gradient
(a freshly created leaf has an all-zero accumulator, standing for grad=None). -/
structure TensorVar where
  data : T4
  grad : T4

/-- random_circular_spatial_shift: negate the offsets when should_undo, roll the
tensor on its two spatial dims, and hand back a fresh differentiable leaf. -/
def randomCircularSpatialShift (v : TensorVar) (hShift wShift : ℤ)
    (shouldUndo : Bool) : TensorVar :=
  let hs := if shouldUndo then -hShift else hShift
  let ws := if shouldUndo then -wShift else wShift
  let rolled := torchRoll v.data hs ws
  { data := rolled, grad := rolled.zerosLike }

/-- Number of elements of a tensor. -/
def T4.numel (t : T4) : ℕ := t.b * t.c * t.h * t.w

/-- Sum of f over all in-range elements of a tensor. -/
def T4.sumOver (t : T4) (f : ℚ → ℚ) : ℚ :=
  ∑ bi ∈ Finset.range t.b, ∑ ci ∈ Finset.range t.c, ∑ i ∈ Finset.range t.h,
    ∑ j ∈ Finset.range t.w, f (t.data bi ci i j)

/-- torch.mean(torch.abs(t)). -/
def meanAbs (t : T4) : ℚ := t.sumOver (fun x => |x|) / (t.numel : ℚ)

/-- Pointwise division of a tensor by a scalar. -/
def T4.divScalar (t : T4) (a : ℚ) : T4 :=
  { t with data := fun bi ci i j => t.data bi ci i j / a }

/-- Scalar multiple of a tensor (lr * t). -/
def T4.smulLeft (a : ℚ) (t : T4) : T4 :=
  { t with data := fun bi ci i j => a * t.data bi ci i j }

/-- Pointwise sum of two tensors of the same shape (dimensions of the first). -/
def T4.add (s t : T4) : T4 :=
  { s with data := fun bi ci i j => s.data bi ci i j + t.data bi ci i j }

/-- Pointwise difference of two tensors of the same shape. -/
def T4.sub (s t : T4) : T4 :=
  { s with data := fun bi ci i j => s.data bi ci i j - t.data bi ci i j }

/-- lower_bound = -IMAGENET_MEAN_1 / IMAGENET_STD_1, broadcast per channel. -/
def lowerBound (c : ℕ) : ℚ := -IMAGENET_MEAN_1 c / IMAGENET_STD_1 c

/-- upper_bound = (1 - IMAGENET_MEAN_1) / IMAGENET_STD_1, broadcast per channel. -/
def upperBound (c : ℕ) : ℚ := (1 - IMAGENET_MEAN_1 c) / IMAGENET_STD_1 c

/-- torch.max(torch.min(img, upper_bound), lower_bound): per-channel clamp. -/
def clampToBounds (t : T4) : T4 :=
  { t with
    data := fun bi ci i j =>
      max (min (t.data bi ci i j) (upperBound ci)) (lowerBound ci) }

/-- Fixed smoothing kernel size of the source. -/
def KERNEL_SIZE : ℕ := 9

/-- torch.nn.MSELoss(reduction=sum) applied to two tensors of equal shape. -/
def mseLossSum (p q : T4) : ℚ :=
  ∑ bi ∈ Finset.range p.b, ∑ ci ∈ Finset.range p.c, ∑ i ∈ Finset.range p.h,
    ∑ j ∈ Finset.range p.w, (p.data bi ci i j - q.data bi ci i j) ^ 2

/-- The loss expression of gradient_ascent:
MSELoss(reduction=sum)(layer, zeros_like(layer)) / 2. -/
def lossOf (layer : T4) : ℚ := mseLossSum layer layer.zerosLike / 2

/-- gradient_ascent(backbone_network, img, lr, cnt), translated statement by
statement. Backpropagation through the external network is the parameter gradFn
(loss.backward() adds its result into the leaf's accumulator); the call
GaussianSmoothing(3, KERNEL_SIZE, sigma)(grad) is the parameter smoothOp applied
at sigma. The in-place mutation of img becomes explicit state passing. -/
def gradientAscent (gradFn : T4 → T4) (smoothOp : ℚ → T4 → T4)
    (img : TensorVar) (lr : ℚ) (cnt : ℕ) : TensorVar :=
  let grad := img.grad.add (gradFn img.data)
  let sigma : ℚ := ((cnt : ℚ) + 1) / 10 * 2 + 1/2
  let smoothGrad := smoothOp sigma grad
  let gMean := meanAbs smoothGrad
  let data1 := img.data.add (T4.smulLeft lr (smoothGrad.divScalar gMean))
  let grad1 := grad.zerosLike
  { data := clampToBounds data1, grad := grad1 }

/-- Modelled from the spec: ascent_step of section 4.5, steps 3-8 in the order
and wording of the spec, for comparison with gradientAscent. -/
def ascentStepSpec (gradFn : T4 → T4) (smoothOp : ℚ → T4 → T4)
    (img : TensorVar) (lr : ℚ) (cnt : ℕ) : TensorVar :=
  let g := img.grad.add (gradFn img.data)
  let smooth := smoothOp (((cnt : ℚ) + 1) / 10 * 2 + 1/2) g
  let normalized := smooth.divScalar (meanAbs smooth)
  let updated := img.data.add (T4.smulLeft lr normalized)
  { data := clampToBounds updated, grad := g.zerosLike }

/-- An image: height × width × channel array of float values as rationals. -/
structure Image where
  h : ℕ
  w : ℕ
  data : ℕ → ℕ → ℕ → ℚ

/-- Content oracle standing for cv.resize's interpolation (an external
collaborator): given the source image and the target height and width, it
produces the resized pixel content. -/
def ResizeOracle : Type := Image → ℕ → ℕ → ℕ → ℕ → ℕ → ℚ

/-- Round to the nearest integer, as cv computes a scaled target size. -/
def roundQ (x : ℚ) : ℤ := ⌊x + 1/2⌋

/-- cv.resize(img, (0, 0), fx, fy): the target size is round(fx*w) × round(fy*h)
and the pixel content comes from the interpolation oracle. -/
def cvResizeScale (interp : ResizeOracle) (fx fy : ℚ) (img : Image) : Image :=
  { h := (roundQ (fy * (img.h : ℚ))).toNat
  , w := (roundQ (fx * (img.w : ℚ))).toNat
  , data := interp img (roundQ (fy * (img.h : ℚ))).toNat (roundQ (fx * (img.w : ℚ))).toNat }

/-- cv.resize(img, (tw, th)): resize to an explicitly given size. -/
def cvResizeTo (interp : ResizeOracle) (img : Image) (tw th : ℕ) : Image :=
  { h := th, w := tw, data := interp img th tw }

/-- Helper of create_image_pyramid: the list [img, resize img, resize² img, ...]
with n successive rescalings appended after the head. -/
def pyramidFrom (interp : ResizeOracle) (r : ℚ) (img : Image) : ℕ → List Image
  | 0 => [img]
  | n + 1 => img :: pyramidFrom interp r (cvResizeScale interp r r img) n

/-- create_image_pyramid(img, num_octaves, octave_scale): start from [img] and
append num_octaves - 1 successive rescalings of the last entry (the loop runs
range(num_octaves - 1) times; a Python range over a non-positive count is
empty, and the function performs no validation of its arguments). -/
def createImagePyramid (interp : ResizeOracle) (img : Image) (numOctaves : ℤ)
    (octaveScale : ℚ) : List Image :=
  pyramidFrom interp octaveScale img (numOctaves - 1).toNat

/-- A decoded uint8 image as cv.imread returns it (BGR channel order). -/
structure RawImage where
  h : ℕ
  w : ℕ
  data : ℕ → ℕ → ℕ → Fin 256

/-- Content oracle for cv.resize on uint8 images: cubic interpolation on a
uint8 array saturates back to uint8 values. -/
def RawResizeOracle : Type := RawImage → ℕ → ℕ → ℕ → ℕ → ℕ → Fin 256

/-- Errors of the loader: the source raises on a missing path before decoding. -/
inductive LoadError where
  | notFound : LoadError

/-- target_shape argument of load_image: absent, a scalar width, or an explicit
(height, width) pair. -/
inductive TargetShape where
  | noShape : TargetShape
  | scalarWidth : ℕ → TargetShape
  | pair : ℕ → ℕ → TargetShape

/-- img[:, :, ::-1]: BGR to RGB channel reversal over the 3 channels. -/
def bgrToRgb (raw : RawImage) : RawImage :=
  { raw with data := fun i j c => raw.data i j (2 - c) }

/-- load_image(img_path, target_shape): check existence first (raising when the
path is absent), decode while reversing the channel order, optionally resize
(still on uint8 data), then convert to float and divide by 255. -/
def loadImage (fs : String → Option RawImage) (interp : RawResizeOracle)
    (imgPath : String) (targetShape : TargetShape) : Except LoadError Image :=
  match fs imgPath with
  | Option.none => Except.error LoadError.notFound
  | Option.some raw0 =>
    let img := bgrToRgb raw0
    let resized : RawImage :=
      match targetShape with
      | TargetShape.noShape => img
      | TargetShape.scalarWidth newWidth =>
        { h := img.h * newWidth / img.w, w := newWidth
        , data := interp img (img.h * newWidth / img.w) newWidth }
      | TargetShape.pair th tw =>
        { h := th, w := tw, data := interp img th tw }
    Except.ok
      { h := resized.h, w := resized.w
      , data := fun i j c => ((resized.data i j c : ℕ) : ℚ) / 255 }

/-- Concrete 1×1 image used by the pyramid witnesses. -/
def pyrWitnessImg : Image := { h := 1, w := 1, data := fun _ _ _ => 0 }

/-- Concrete interpolation oracle used by the pyramid witnesses. -/
def pyrWitnessInterp : ResizeOracle := fun _ _ _ _ _ _ => 0

/-- Concrete decoded image used by the loader witness. -/
def rawWitnessImg : RawImage := { h := 1, w := 1, data := fun _ _ _ => (7 : Fin 256) }

/-- Concrete uint8 interpolation oracle used by the loader witness. -/
def rawInterpWitness : RawResizeOracle := fun _ _ _ _ _ _ => (0 : Fin 256)

/-- Concrete one-file file system used by the loader witness. -/
def fsWitness : String → Option RawImage := fun p =>
  if p = "figures.jpg" then Option.some rawWitnessImg else Option.none

/-- One per-dimension Gaussian factor of the smoothing kernel construction:
1/(std*sqrt(2*pi)) * exp(-((grid - mean)/std)^2 / 2) at integer grid point i,
with mean = (size - 1)/2, exactly as GaussianSmoothing.__init__ computes it. -/
noncomputable def gaussFactor (std : ℝ) (size : ℕ) (i : ℕ) : ℝ :=
  1 / (std * Real.sqrt (2 * Real.pi)) *
    Real.exp (-(((i : ℝ) - ((size : ℝ) - 1) / 2) / std) ^ 2 / 2)

/-- The kernel-building loop of GaussianSmoothing.__init__: for each sigma in
turn, the running kernel is multiplied by the per-dimension Gaussian factor of
meshgrid 0 and appended, then multiplied by the factor of meshgrid 1 and
appended again; the running kernel is never reset between sigmas (the append
sits inside the inner zip loop in the source). -/
noncomputable def gsKernelLoop (size : ℕ) : List ℝ → (ℕ → ℕ → ℝ) → List (ℕ → ℕ → ℝ)
  | [], _ => []
  | s :: rest, kernel =>
    let k1 : ℕ → ℕ → ℝ := fun i j => kernel i j * gaussFactor s size i
    let k2 : ℕ → ℕ → ℝ := fun i j => k1 i j * gaussFactor s size j
    k1 :: k2 :: gsKernelLoop size rest k2

/-- The kernels list built by GaussianSmoothing.__init__(channels, size, sigma):
sigmas = [0.5*sigma, 1.0*sigma, 2.0*sigma], initial running kernel 1. -/
noncomputable def gsKernels (size : ℕ) (sigma : ℝ) : List (ℕ → ℕ → ℝ) :=
  gsKernelLoop size [0.5 * sigma, 1.0 * sigma, 2.0 * sigma] (fun _ _ => 1)

/-- Sum of all entries of a size × size kernel. -/
noncomputable def kernelSum (size : ℕ) (k : ℕ → ℕ → ℝ) : ℝ :=
  ∑ i ∈ Finset.range size, ∑ j ∈ Finset.range size, k i j

/-- kernel / torch.sum(kernel): normalization so the entries sum to 1. -/
noncomputable def normalizeKernel (size : ℕ) (k : ℕ → ℕ → ℝ) : ℕ → ℕ → ℝ :=
  fun i j => k i j / kernelSum size k

/-- The registered buffer weight(idx+1) of GaussianSmoothing.__init__: the
normalized idx-th entry of the kernels list (idx in {0, 1, 2}). -/
noncomputable def gsWeight (size : ℕ) (sigma : ℝ) (idx : ℕ) : ℕ → ℕ → ℝ :=
  normalizeKernel size ((gsKernels size sigma).getD idx (fun _ _ => 0))

/-- Modelled from the spec: a 2-D Gaussian kernel as the product of the
per-dimension Gaussian factors at one standard deviation. -/
noncomputable def gauss2D (std : ℝ) (size : ℕ) : ℕ → ℕ → ℝ :=
  fun i j => gaussFactor std size i * gaussFactor std size j

/-- Modelled from the spec: the normalized 2-D Gaussian kernel that, per the
spec, each of the three depthwise convolution weights should be (at standard
deviations 0.5σ, 1.0σ and 2.0σ respectively). -/
noncomputable def specGaussWeight (std : ℝ) (size : ℕ) : ℕ → ℕ → ℝ :=
  normalizeKernel size (gauss2D std size)

/-- preprocess(img): subtract the per-channel mean and divide by the
per-channel standard deviation. -/
def preprocess (img : Image) : Image :=
  { img with
    data := fun i j c => (img.data i j c - IMAGENET_MEAN_1 c) / IMAGENET_STD_1 c }

/-- np.zeros_like on an image. -/
def zerosLikeImage (img : Image) : Image := { img with data := fun _ _ _ => 0 }

/-- Pointwise sum of two images on the shape of the first. -/
def addImages (p q : Image) : Image :=
  { p with data := fun i j c => p.data i j c + q.data i j c }

/-- Pointwise difference of two images on the shape of the first. -/
def subImages (p q : Image) : Image :=
  { p with data := fun i j c => p.data i j c - q.data i j c }

/-- pytorch_input_adapter: HWC image to a 1×3×H×W differentiable leaf tensor. -/
def pytorchInputAdapter (img : Image) : TensorVar :=
  let t : T4 :=
    { b := 1, c := 3, h := img.h, w := img.w, data := fun _ ci i j => img.data i j ci }
  { data := t, grad := t.zerosLike }

/-- pytorch_output_adapter: drop the batch dim and move channels last. -/
def pytorchOutputAdapter (v : TensorVar) : Image :=
  { h := v.data.h, w := v.data.w, data := fun i j c => v.data.data 0 c i j }

/-- One iteration of deep_dream's inner loop: draw jitter offsets, shift, run
one ascent step, undo the shift. -/
def dreamIteration (gradFn : T4 → T4) (smoothOp : ℚ → T4 → T4) (rng : ℕ → ℤ × ℤ)
    (lr : ℚ) (v : TensorVar) (i : ℕ) : TensorVar :=
  let s := rng i
  let v1 := randomCircularSpatialShift v s.1 s.2 false
  let v2 := gradientAscent gradFn smoothOp v1 lr i
  randomCircularSpatialShift v2 s.1 s.2 true

/-- deep_dream's inner loop: n_iter jittered ascent steps on the working tensor. -/
def innerLoop (gradFn : T4 → T4) (smoothOp : ℚ → T4 → T4) (rng : ℕ → ℤ × ℤ)
    (lr : ℚ) (nIter : ℕ) (v : TensorVar) : TensorVar :=
  (List.range nIter).foldl (dreamIteration gradFn smoothOp rng lr) v

/-- The per-octave optimization of deep_dream: adapt the working image to a
tensor, run the jittered inner loop, read the result back as an image. -/
def dreamOpt (gradFn : T4 → T4) (smoothOp : ℚ → T4 → T4) (rng : ℕ → ℕ → ℤ × ℤ)
    (lr : ℚ) (nIter : ℕ) (octave : ℕ) (inputImg : Image) : Image :=
  pytorchOutputAdapter
    (innerLoop gradFn smoothOp (rng octave) lr nIter (pytorchInputAdapter inputImg))

/-- The body of deep_dream's octave loop; the state is (detail, best image). -/
def octaveStep (interp : ResizeOracle) (gradFn : T4 → T4) (smoothOp : ℚ → T4 → T4)
    (rng : ℕ → ℕ → ℤ × ℤ) (lr : ℚ) (nIter : ℕ)
    (st : Image × Option Image) (oc : ℕ × Image) : Image × Option Image :=
  let detail := if 0 < oc.1 then cvResizeTo interp st.1 oc.2.w oc.2.h else st.1
  let currentImg := dreamOpt gradFn smoothOp rng lr nIter oc.1 (addImages oc.2 detail)
  (subImages currentImg oc.2, Option.some currentImg)

/-- A default image for lookups on lists known to be nonempty. -/
def dummyImage : Image := { h := 0, w := 0, data := fun _ _ _ => 0 }

/-- deep_dream(img): preprocess into network statistics, build the pyramid with
the hard-coded constants (pyramid_size 4, pyramid_ratio 1/1.4, n_iter 10,
lr 0.09), then fold the octave step over the reversed pyramid (smallest
resolution first), starting from a zero detail shaped like the coarsest level.
The network gradient, the smoothing module, the resize interpolation and the
per-iteration jitter offsets (np.random.randint draws with jitter = 100) are
external parameters. -/
def deepDream (interp : ResizeOracle) (gradFn : T4 → T4) (smoothOp : ℚ → T4 → T4)
    (rng : ℕ → ℕ → ℤ × ℤ) (img : Image) : Option Image :=
  let baseImg := preprocess img
  let imgPyramid := createImagePyramid interp baseImg 4 (1 / (14/10))
  let detail0 := zerosLikeImage (imgPyramid.getLast?.getD dummyImage)
  ((imgPyramid.reverse.enum).foldl
    (octaveStep interp gradFn smoothOp rng (9/100) 10) (detail0, Option.none)).2

/-- Modelled from the spec: the octave driver state machine of section 4.6.
On entering an octave other than the first, the carried detail is resized to
the octave's (height, width); the working input is octave_base + detail; on
leaving an octave the detail becomes result - octave_base and the result is
remembered; after the last (finest) octave the remembered result is returned. -/
def octaveDriverSpec (resizeD : Image → ℕ → ℕ → Image) (opt : ℕ → Image → Image) :
    ℕ → Image → List Image → Option Image
  | _, _, [] => Option.none
  | octave, detail, base :: rest =>
    let detail1 := if 0 < octave then resizeD detail base.w base.h else detail
    let result := opt octave (addImages base detail1)
    match rest with
    | [] => Option.some result
    | next :: more =>
      octaveDriverSpec resizeD opt (octave + 1) (subImages result base) (next :: more)

end DeepDream

namespace DeepDream

lemma wrapIdx_wrapIdx (n : ℕ) (s : ℤ) (i : ℕ) (hi : i < n) :
    wrapIdx n s (wrapIdx n (-s) i) = i := by
  have hn : 0 < n := lt_of_le_of_lt (Nat.zero_le i) hi
  have hn0 : (n : ℤ) ≠ 0 := by exact_mod_cast Nat.pos_iff_ne_zero.mp hn
  unfold wrapIdx
  have h1 : ((i : ℤ) - -s) = (i : ℤ) + s := by ring
  rw [h1]
  set a : ℤ := ((i : ℤ) + s) % (n : ℤ) with ha
  have ha0 : 0 ≤ a := Int.emod_nonneg _ hn0
  rw [Int.toNat_of_nonneg ha0]
  have h2 : (a - s) % (n : ℤ) = ((i : ℤ) + s - s) % (n : ℤ) := by
    rw [ha, Int.sub_emod, Int.emod_emod_of_dvd _ dvd_rfl, ← Int.sub_emod]
  rw [h2]
  have h3 : ((i : ℤ) + s - s) = (i : ℤ) := by ring
  rw [h3, Int.emod_eq_of_lt (by exact_mod_cast Nat.zero_le i) (by exact_mod_cast hi)]
  exact Int.toNat_natCast i

/-- C2: applying the cyclic spatial shift by (dh, dw) and then the same operation
with should_undo returns a tensor equal to the original, element for element. -/
theorem claim_C2_jitter_roundtrip (v : TensorVar) (dh dw : ℤ) :
    T4.eqv (randomCircularSpatialShift
      (randomCircularSpatialShift v dh dw false) dh dw true).data v.data := by
  refine ⟨rfl, rfl, rfl, rfl, ?_⟩
  intro bi ci i j hb hc hih hjw
  have hih' : i < v.data.h := hih
  have hjw' : j < v.data.w := hjw
  show v.data.data bi ci (wrapIdx v.data.h dh (wrapIdx v.data.h (-dh) i))
      (wrapIdx v.data.w dw (wrapIdx v.data.w (-dw) j)) = v.data.data bi ci i j
  rw [wrapIdx_wrapIdx _ _ _ hih', wrapIdx_wrapIdx _ _ _ hjw']

lemma lowerBound_le_upperBound (c : ℕ) : lowerBound c ≤ upperBound c := by
  unfold lowerBound upperBound IMAGENET_MEAN_1 IMAGENET_STD_1
  split_ifs <;> norm_num

lemma clampToBounds_bounds (t : T4) (bi ci i j : ℕ) :
    lowerBound ci ≤ (clampToBounds t).data bi ci i j ∧
    (clampToBounds t).data bi ci i j ≤ upperBound ci := by
  show lowerBound ci ≤ max (min (t.data bi ci i j) (upperBound ci)) (lowerBound ci) ∧
      max (min (t.data bi ci i j) (upperBound ci)) (lowerBound ci) ≤ upperBound ci
  exact ⟨le_max_right _ _, max_le (min_le_right _ _) (lowerBound_le_upperBound ci)⟩

/-- C1: after gradient_ascent, every element of the tensor lies within the
per-channel range [lower_bound[channel], upper_bound[channel]] derived from the
normalization statistics; the bounds genuinely vary by channel. -/
theorem claim_C1_clamp_invariant (gradFn : T4 → T4) (smoothOp : ℚ → T4 → T4)
    (img : TensorVar) (lr : ℚ) (cnt : ℕ) (bi ci i j : ℕ) :
    lowerBound ci ≤ (gradientAscent gradFn smoothOp img lr cnt).data.data bi ci i j ∧
    (gradientAscent gradFn smoothOp img lr cnt).data.data bi ci i j ≤ upperBound ci ∧
    lowerBound 0 ≠ lowerBound 2 ∧ upperBound 0 ≠ upperBound 2 := by
  refine ⟨?_, ?_, ?_, ?_⟩
  · exact (clampToBounds_bounds _ bi ci i j).1
  · exact (clampToBounds_bounds _ bi ci i j).2
  · unfold lowerBound IMAGENET_MEAN_1 IMAGENET_STD_1; norm_num
  · unfold upperBound IMAGENET_MEAN_1 IMAGENET_STD_1; norm_num

/-- C4: dividing the (smoothed) gradient by the mean of its absolute values yields
a tensor whose mean absolute value equals 1, whenever that mean is nonzero. -/
theorem claim_C4_grad_normalization (t : T4) (hm : meanAbs t ≠ 0) :
    meanAbs (t.divScalar (meanAbs t)) = 1 := by
  have hnn : 0 ≤ meanAbs t := by
    unfold meanAbs
    refine div_nonneg ?_ (by positivity)
    refine Finset.sum_nonneg fun bi _ => ?_
    refine Finset.sum_nonneg fun ci _ => ?_
    refine Finset.sum_nonneg fun i _ => ?_
    exact Finset.sum_nonneg fun j _ => abs_nonneg _
  have hpos : 0 < meanAbs t := lt_of_le_of_ne hnn (Ne.symm hm)
  have key : (t.divScalar (meanAbs t)).sumOver (fun x => |x|)
      = t.sumOver (fun x => |x|) / meanAbs t := by
    simp [T4.sumOver, T4.divScalar, abs_div, abs_of_pos hpos, Finset.sum_div]
  have hnumel : (t.divScalar (meanAbs t)).numel = t.numel := rfl
  unfold meanAbs at *
  rw [key, hnumel, div_div, mul_comm, ← div_div]
  exact div_self hm

/-- Concrete tensor used to witness the gradient-normalization theorem. -/
def normWitnessT : T4 :=
  { b := 1, c := 1, h := 1, w := 2, data := fun _ _ _ j => if j = 0 then 2 else -1 }

theorem claim_C4_grad_normalization_witness :
    meanAbs normWitnessT ≠ 0 ∧
    meanAbs (normWitnessT.divScalar (meanAbs normWitnessT)) = 1 := by
  have hm : meanAbs normWitnessT ≠ 0 := by
    norm_num [meanAbs, T4.sumOver, T4.numel, normWitnessT, Finset.sum_range_succ]
  exact ⟨hm, claim_C4_grad_normalization normWitnessT hm⟩

/-- C5: one ascent step performs, in order: read the activation gradient from
backpropagation, smooth it with sigma = (cnt+1)/10*2 + 1/2, divide by the mean
absolute value, add learning_rate times the normalized gradient to the tensor
(in the gradient's direction), zero the accumulated gradient, then clamp; and
the loss expression equals sum(activation^2)/2. -/
theorem claim_C5_ascent_step_pipeline (gradFn : T4 → T4) (smoothOp : ℚ → T4 → T4)
    (img : TensorVar) (lr : ℚ) (cnt : ℕ) :
    gradientAscent gradFn smoothOp img lr cnt = ascentStepSpec gradFn smoothOp img lr cnt ∧
    (∀ layer : T4, lossOf layer = layer.sumOver (fun x => x ^ 2) / 2) ∧
    (gradientAscent gradFn smoothOp img lr cnt).grad
      = (img.grad.add (gradFn img.data)).zerosLike := by
  refine ⟨rfl, ?_, rfl⟩
  intro layer
  unfold lossOf mseLossSum T4.sumOver T4.zerosLike
  simp

lemma pyramidFrom_length (interp : ResizeOracle) (r : ℚ) :
    ∀ (n : ℕ) (img : Image), (pyramidFrom interp r img n).length = n + 1 := by
  intro n
  induction n with
  | zero => intro img; rfl
  | succ n ih =>
    intro img
    show (img :: pyramidFrom interp r (cvResizeScale interp r r img) n).length = n + 2
    simp [ih]

lemma pyramidFrom_getD_zero (interp : ResizeOracle) (r : ℚ) (n : ℕ) (img dummy : Image) :
    (pyramidFrom interp r img n).getD 0 dummy = img := by
  cases n <;> rfl

lemma pyramidFrom_getD_succ (interp : ResizeOracle) (r : ℚ) (dummy : Image) :
    ∀ (n : ℕ) (img : Image) (k : ℕ), k + 1 ≤ n →
      (pyramidFrom interp r img n).getD (k + 1) dummy
        = cvResizeScale interp r r ((pyramidFrom interp r img n).getD k dummy) := by
  intro n
  induction n with
  | zero => intro img k hk; omega
  | succ n ih =>
    intro img k hk
    show (pyramidFrom interp r (cvResizeScale interp r r img) n).getD k dummy = _
    cases k with
    | zero =>
      rw [pyramidFrom_getD_zero]
      rfl
    | succ k =>
      have hk' : k + 1 ≤ n := by omega
      rw [ih (cvResizeScale interp r r img) k hk']
      rfl

/-- C6: for levels ≥ 1 and ratio in (0,1), the pyramid has exactly `levels`
entries, entry 0 is the input unchanged, every later entry is the rescaling of
its predecessor, and each entry's height and width are the rounded ratio
multiple of the predecessor's. -/
theorem claim_C6_pyramid (interp : ResizeOracle) (img : Image) (levels : ℤ)
    (ratio : ℚ) (dummy : Image) (hl : 1 ≤ levels) (_hr0 : 0 < ratio) (_hr1 : ratio < 1) :
    (createImagePyramid interp img levels ratio).length = levels.toNat ∧
    (createImagePyramid interp img levels ratio).getD 0 dummy = img ∧
    (∀ k : ℕ, k + 1 < levels.toNat →
      (createImagePyramid interp img levels ratio).getD (k + 1) dummy
        = cvResizeScale interp ratio ratio
            ((createImagePyramid interp img levels ratio).getD k dummy)) ∧
    (∀ k : ℕ, k + 1 < levels.toNat →
      ((createImagePyramid interp img levels ratio).getD (k + 1) dummy).h
        = (roundQ (ratio * ((((createImagePyramid interp img levels ratio).getD k dummy).h : ℕ) : ℚ))).toNat ∧
      ((createImagePyramid interp img levels ratio).getD (k + 1) dummy).w
        = (roundQ (ratio * ((((createImagePyramid interp img levels ratio).getD k dummy).w : ℕ) : ℚ))).toNat) := by
  have hlen : (createImagePyramid interp img levels ratio).length = levels.toNat := by
    rw [createImagePyramid, pyramidFrom_length]
    omega
  have hrec : ∀ k : ℕ, k + 1 < levels.toNat →
      (createImagePyramid interp img levels ratio).getD (k + 1) dummy
        = cvResizeScale interp ratio ratio
            ((createImagePyramid interp img levels ratio).getD k dummy) := by
    intro k hk
    rw [createImagePyramid]
    exact pyramidFrom_getD_succ interp ratio dummy _ img k (by omega)
  refine ⟨hlen, ?_, hrec, ?_⟩
  · rw [createImagePyramid, pyramidFrom_getD_zero]
  · intro k hk
    rw [hrec k hk]
    exact ⟨rfl, rfl⟩

theorem claim_C6_pyramid_witness :
    (createImagePyramid pyrWitnessInterp pyrWitnessImg 2 (1/2)).length = 2 ∧
    (createImagePyramid pyrWitnessInterp pyrWitnessImg 2 (1/2)).getD 0 pyrWitnessImg
      = pyrWitnessImg := by
  have h := claim_C6_pyramid pyrWitnessInterp pyrWitnessImg 2 (1/2) pyrWitnessImg
    (by norm_num) (by norm_num) (by norm_num)
  exact ⟨by simpa using h.1, h.2.1⟩

/-- C7 counterexample: called with levels = 0 (which is < 1), the pyramid
builder does not fail: it returns the one-element pyramid normally, so no
InvalidConfigError is ever surfaced (the source contains no validation). -/
theorem claim_C7_counterexample :
    createImagePyramid pyrWitnessInterp pyrWitnessImg 0 (7/10) = [pyrWitnessImg] := by
  have h0 : ((0 : ℤ) - 1).toNat = 0 := by omega
  rw [createImagePyramid, h0]
  rfl

/-- C7 amended: no configuration validation exists anywhere; for every
levels < 1 the builder returns the one-element pyramid [img] without error (and
deep_dream has no iteration-count parameter at all: its n_iter is the
hard-coded constant 10, so no InvalidConfigError can be raised there either). -/
theorem claim_C7_amended_no_validation (interp : ResizeOracle) (img : Image)
    (levels : ℤ) (ratio : ℚ) (hl : levels < 1) :
    createImagePyramid interp img levels ratio = [img] := by
  have h0 : (levels - 1).toNat = 0 := by omega
  rw [createImagePyramid, h0]
  rfl

theorem claim_C7_amended_no_validation_witness :
    createImagePyramid pyrWitnessInterp pyrWitnessImg (-3) (7/10) = [pyrWitnessImg] :=
  claim_C7_amended_no_validation pyrWitnessInterp pyrWitnessImg (-3) (7/10) (by norm_num)

/-- C10: the pyramid builder never fails and never returns an empty sequence:
its length is max(num_octaves, 1), and for num_octaves ≤ 1 (zero and negative
included) the result is exactly the one-element sequence [img]. -/
theorem claim_C10_pyramid_degenerate (interp : ResizeOracle) (img : Image)
    (numOctaves : ℤ) (octaveScale : ℚ) :
    (createImagePyramid interp img numOctaves octaveScale).length
      = (max numOctaves 1).toNat ∧
    (numOctaves ≤ 1 → createImagePyramid interp img numOctaves octaveScale = [img]) := by
  constructor
  · rw [createImagePyramid, pyramidFrom_length]
    rcases le_total numOctaves 1 with hc | hc
    · rw [max_eq_right hc]; omega
    · rw [max_eq_left hc]; omega
  · intro hle
    have h0 : (numOctaves - 1).toNat = 0 := by omega
    rw [createImagePyramid, h0]
    rfl

theorem claim_C10_pyramid_degenerate_witness :
    (createImagePyramid pyrWitnessInterp pyrWitnessImg (-2) (1/2)).length = 1 ∧
    createImagePyramid pyrWitnessInterp pyrWitnessImg (-2) (1/2) = [pyrWitnessImg] := by
  have h := claim_C10_pyramid_degenerate pyrWitnessInterp pyrWitnessImg (-2) (1/2)
  exact ⟨by simpa using h.1, h.2 (by norm_num)⟩

/-- C8: load_image fails with the not-found error for a missing path, for every
possible decoder and resizer behavior (the existence check precedes both); for
an existing path it returns a float image with every value in [0, 1], and with
the channel order reversed from the decoder's BGR into RGB. -/
theorem claim_C8_load_image (fs : String → Option RawImage) (interp : RawResizeOracle)
    (imgPath : String) (targetShape : TargetShape) :
    (fs imgPath = Option.none →
      loadImage fs interp imgPath targetShape = Except.error LoadError.notFound) ∧
    (∀ raw : RawImage, fs imgPath = Option.some raw →
      ∃ img : Image, loadImage fs interp imgPath targetShape = Except.ok img ∧
        (∀ i j c : ℕ, 0 ≤ img.data i j c ∧ img.data i j c ≤ 1) ∧
        (targetShape = TargetShape.noShape →
          img.h = raw.h ∧ img.w = raw.w ∧
          ∀ i j c : ℕ, img.data i j c = ((raw.data i j (2 - c) : ℕ) : ℚ) / 255)) := by
  constructor
  · intro hnone
    unfold loadImage
    rw [hnone]
  · intro raw hsome
    have hval : ∀ v : Fin 256, 0 ≤ ((v : ℕ) : ℚ) / 255 ∧ ((v : ℕ) : ℚ) / 255 ≤ 1 := by
      intro v
      constructor
      · positivity
      · rw [div_le_one (by norm_num)]
        exact_mod_cast le_trans (Nat.le_of_lt_succ v.isLt) (by norm_num)
    unfold loadImage
    rw [hsome]
    cases targetShape with
    | noShape =>
      refine ⟨_, rfl, fun i j c => hval _, fun _ => ⟨rfl, rfl, fun i j c => rfl⟩⟩
    | scalarWidth newWidth =>
      refine ⟨_, rfl, fun i j c => hval _, fun hcontra => by cases hcontra⟩
    | pair th tw =>
      refine ⟨_, rfl, fun i j c => hval _, fun hcontra => by cases hcontra⟩

theorem claim_C8_load_image_witness :
    loadImage fsWitness rawInterpWitness "missing.jpg" TargetShape.noShape
      = Except.error LoadError.notFound ∧
    ∃ img : Image,
      loadImage fsWitness rawInterpWitness "figures.jpg" TargetShape.noShape
        = Except.ok img ∧ ∀ i j c : ℕ, 0 ≤ img.data i j c ∧ img.data i j c ≤ 1 := by
  have h1 := (claim_C8_load_image fsWitness rawInterpWitness "missing.jpg"
    TargetShape.noShape).1
  have h2 := (claim_C8_load_image fsWitness rawInterpWitness "figures.jpg"
    TargetShape.noShape).2
  refine ⟨h1 (by simp [fsWitness]), ?_⟩
  obtain ⟨img, hok, hbounds, _⟩ := h2 rawWitnessImg (by simp [fsWitness])
  exact ⟨img, hok, hbounds⟩

lemma gaussFactor_pos (std : ℝ) (size i : ℕ) (h : 0 < std) :
    0 < gaussFactor std size i := by
  unfold gaussFactor
  have hs : 0 < Real.sqrt (2 * Real.pi) :=
    Real.sqrt_pos.mpr (by positivity)
  positivity

/-- C3: the kernels of GaussianSmoothing are NOT the three normalized 2-D
Gaussians the claim (and the class's own docstring) describe. At the source's
configuration (kernel_size 9, here sigma = 1) the first registered weight
differs from the normalized 2-D Gaussian at 0.5*sigma: the appended kernel is
the per-dimension factor of meshgrid 0 alone, hence constant along axis 1,
while the 2-D Gaussian is not. The kernels.append sits inside the inner
per-dimension loop and the running kernel is never reset between sigmas, so
the registered weights are the normalizations of [G(0.5σ) along axis 0,
G(0.5σ) 2-D, G(0.5σ) 2-D times G(1.0σ) along axis 0] and 2.0σ never enters a
used weight. -/
theorem claim_C3_gaussian_weights_bug :
    gsWeight 9 1 0 ≠ specGaussWeight (0.5 * 1) 9 := by
  intro hEq
  have hconst : gsWeight 9 1 0 0 0 = gsWeight 9 1 0 0 4 := rfl
  have h1 : gsWeight 9 1 0 0 0 = specGaussWeight (0.5 * 1) 9 0 0 := by rw [hEq]
  have h2 : gsWeight 9 1 0 0 4 = specGaussWeight (0.5 * 1) 9 0 4 := by rw [hEq]
  have h00 : specGaussWeight (0.5 * 1) 9 0 0 = specGaussWeight (0.5 * 1) 9 0 4 :=
    h1.symm.trans (hconst.trans h2)
  have hg : ∀ i : ℕ, 0 < gaussFactor (0.5 * 1) 9 i := by
    intro i
    exact gaussFactor_pos (0.5 * 1) 9 i (by norm_num)
  have hS : 0 < kernelSum 9 (gauss2D (0.5 * 1) 9) := by
    unfold kernelSum
    refine Finset.sum_pos (fun i _ => ?_) ⟨0, Finset.mem_range.mpr (by norm_num)⟩
    refine Finset.sum_pos (fun j _ => ?_) ⟨0, Finset.mem_range.mpr (by norm_num)⟩
    exact mul_pos (hg i) (hg j)
  have h00' : gauss2D (0.5 * 1) 9 0 0 / kernelSum 9 (gauss2D (0.5 * 1) 9)
      = gauss2D (0.5 * 1) 9 0 4 / kernelSum 9 (gauss2D (0.5 * 1) 9) := h00
  rw [div_eq_div_iff hS.ne' hS.ne'] at h00'
  have hTerms : gauss2D (0.5 * 1) 9 0 0 = gauss2D (0.5 * 1) 9 0 4 :=
    mul_right_cancel₀ hS.ne' h00'
  have hFac : gaussFactor (0.5 * 1) 9 0 = gaussFactor (0.5 * 1) 9 4 :=
    mul_left_cancel₀ (hg 0).ne' hTerms
  have hlt : gaussFactor (0.5 * 1) 9 0 < gaussFactor (0.5 * 1) 9 4 := by
    unfold gaussFactor
    have hc : 0 < 1 / ((0.5 * 1 : ℝ) * Real.sqrt (2 * Real.pi)) := by
      have hs : 0 < Real.sqrt (2 * Real.pi) := Real.sqrt_pos.mpr (by positivity)
      positivity
    refine mul_lt_mul_of_pos_left ?_ hc
    refine Real.exp_lt_exp.mpr ?_
    push_cast
    norm_num
  exact absurd hFac (ne_of_lt hlt)

lemma foldl_dreamIteration_dims (gradFn : T4 → T4) (smoothOp : ℚ → T4 → T4)
    (rng : ℕ → ℤ × ℤ) (lr : ℚ) :
    ∀ (l : List ℕ) (v : TensorVar),
      (l.foldl (dreamIteration gradFn smoothOp rng lr) v).data.h = v.data.h ∧
      (l.foldl (dreamIteration gradFn smoothOp rng lr) v).data.w = v.data.w := by
  intro l
  induction l with
  | nil => exact fun v => ⟨rfl, rfl⟩
  | cons a l ih =>
    intro v
    exact ih (dreamIteration gradFn smoothOp rng lr v a)

lemma dreamOpt_dims (gradFn : T4 → T4) (smoothOp : ℚ → T4 → T4) (rng : ℕ → ℕ → ℤ × ℤ)
    (lr : ℚ) (nIter : ℕ) (octave : ℕ) (inputImg : Image) :
    (dreamOpt gradFn smoothOp rng lr nIter octave inputImg).h = inputImg.h ∧
    (dreamOpt gradFn smoothOp rng lr nIter octave inputImg).w = inputImg.w :=
  foldl_dreamIteration_dims gradFn smoothOp (rng octave) lr (List.range nIter)
    (pytorchInputAdapter inputImg)

lemma octaveFold_eq_spec (interp : ResizeOracle) (gradFn : T4 → T4)
    (smoothOp : ℚ → T4 → T4) (rng : ℕ → ℕ → ℤ × ℤ) (lr : ℚ) (nIter : ℕ) :
    ∀ (l : List Image) (k : ℕ) (d : Image) (best : Option Image), l ≠ [] →
      ((List.enumFrom k l).foldl (octaveStep interp gradFn smoothOp rng lr nIter)
          (d, best)).2
        = octaveDriverSpec (cvResizeTo interp) (dreamOpt gradFn smoothOp rng lr nIter)
            k d l := by
  intro l
  induction l with
  | nil => intro k d best h; exact absurd rfl h
  | cons base rest ih =>
    intro k d best _
    cases rest with
    | nil => rfl
    | cons next more =>
      have hne : (next :: more : List Image) ≠ [] := by simp
      have hstep : octaveStep interp gradFn smoothOp rng lr nIter (d, best) (k, base)
          = (subImages (dreamOpt gradFn smoothOp rng lr nIter k
              (addImages base (if 0 < k then cvResizeTo interp d base.w base.h else d)))
              base,
             Option.some (dreamOpt gradFn smoothOp rng lr nIter k
              (addImages base (if 0 < k then cvResizeTo interp d base.w base.h else d)))) :=
        rfl
      have h1 : ((List.enumFrom k (base :: next :: more)).foldl
            (octaveStep interp gradFn smoothOp rng lr nIter) (d, best)).2
          = ((List.enumFrom (k + 1) (next :: more)).foldl
              (octaveStep interp gradFn smoothOp rng lr nIter)
              (octaveStep interp gradFn smoothOp rng lr nIter (d, best) (k, base))).2 := rfl
      have hspec : octaveDriverSpec (cvResizeTo interp)
            (dreamOpt gradFn smoothOp rng lr nIter) k d (base :: next :: more)
          = octaveDriverSpec (cvResizeTo interp) (dreamOpt gradFn smoothOp rng lr nIter)
              (k + 1)
              (subImages (dreamOpt gradFn smoothOp rng lr nIter k
                (addImages base (if 0 < k then cvResizeTo interp d base.w base.h else d)))
                base)
              (next :: more) := rfl
      rw [h1, hstep, hspec]
      exact ih (k + 1) _ _ hne

lemma octaveDriverSpec_dims (resizeD : Image → ℕ → ℕ → Image) (opt : ℕ → Image → Image)
    (hopt : ∀ oc im, (opt oc im).h = im.h ∧ (opt oc im).w = im.w) :
    ∀ (l : List Image) (k : ℕ) (d : Image), l ≠ [] →
      ∃ r : Image, octaveDriverSpec resizeD opt k d l = Option.some r ∧
        r.h = (l.getLast?.getD dummyImage).h ∧
        r.w = (l.getLast?.getD dummyImage).w := by
  intro l
  induction l with
  | nil => intro k d h; exact absurd rfl h
  | cons base rest ih =>
    intro k d _
    cases rest with
    | nil =>
      refine ⟨opt k (addImages base (if 0 < k then resizeD d base.w base.h else d)),
        rfl, ?_, ?_⟩
      · exact (hopt _ _).1
      · exact (hopt _ _).2
    | cons next more =>
      obtain ⟨r, hr, hh, hw⟩ := ih (k + 1)
        (subImages (opt k (addImages base (if 0 < k then resizeD d base.w base.h else d)))
          base) (by simp)
      refine ⟨r, hr, ?_, ?_⟩
      · rw [List.getLast?_cons_cons]; exact hh
      · rw [List.getLast?_cons_cons]; exact hw

lemma pyramidFrom_head (interp : ResizeOracle) (r : ℚ) (img : Image) (n : ℕ) :
    (pyramidFrom interp r img n).head? = Option.some img := by
  cases n <;> rfl

lemma pyramidFrom_ne_nil (interp : ResizeOracle) (r : ℚ) (img : Image) (n : ℕ) :
    pyramidFrom interp r img n ≠ [] := by
  cases n <;> simp [pyramidFrom]

/-- C9: deep_dream equals the spec's octave driver run over the reversed
pyramid, from the smallest level to the largest, starting from a zero detail
shaped like the coarsest level, resizing the carried detail on each later
octave, optimizing octave_base + detail and carrying detail = result -
octave_base between octaves; the returned image is the finest octave's result
and its height and width equal the input image's. -/
theorem claim_C9_octave_driver (interp : ResizeOracle) (gradFn : T4 → T4)
    (smoothOp : ℚ → T4 → T4) (rng : ℕ → ℕ → ℤ × ℤ) (img : Image) :
    deepDream interp gradFn smoothOp rng img
      = octaveDriverSpec (cvResizeTo interp) (dreamOpt gradFn smoothOp rng (9/100) 10) 0
          (zerosLikeImage
            (((createImagePyramid interp (preprocess img) 4 (1 / (14/10))).getLast?).getD
              dummyImage))
          (createImagePyramid interp (preprocess img) 4 (1 / (14/10))).reverse ∧
    ∃ r : Image, deepDream interp gradFn smoothOp rng img = Option.some r ∧
      r.h = img.h ∧ r.w = img.w := by
  have hne : (createImagePyramid interp (preprocess img) 4 (1 / (14/10))).reverse ≠ [] := by
    rw [createImagePyramid]
    simp [pyramidFrom_ne_nil]
  have hfold := octaveFold_eq_spec interp gradFn smoothOp rng (9/100) 10
    (createImagePyramid interp (preprocess img) 4 (1 / (14/10))).reverse 0
    (zerosLikeImage
      (((createImagePyramid interp (preprocess img) 4 (1 / (14/10))).getLast?).getD
        dummyImage))
    Option.none hne
  have hopt : ∀ oc im, (dreamOpt gradFn smoothOp rng (9/100) 10 oc im).h = im.h ∧
      (dreamOpt gradFn smoothOp rng (9/100) 10 oc im).w = im.w :=
    fun oc im => dreamOpt_dims gradFn smoothOp rng (9/100) 10 oc im
  obtain ⟨r, hr, hh, hw⟩ := octaveDriverSpec_dims (cvResizeTo interp)
    (dreamOpt gradFn smoothOp rng (9/100) 10) hopt
    (createImagePyramid interp (preprocess img) 4 (1 / (14/10))).reverse 0
    (zerosLikeImage
      (((createImagePyramid interp (preprocess img) 4 (1 / (14/10))).getLast?).getD
        dummyImage)) hne
  have hlast :
      ((createImagePyramid interp (preprocess img) 4 (1 / (14/10))).reverse.getLast?.getD
        dummyImage) = preprocess img := by
    rw [List.getLast?_reverse, createImagePyramid, pyramidFrom_head]
    rfl
  refine ⟨hfold, r, hfold.trans hr, ?_, ?_⟩
  · rw [hh, hlast]; rfl
  · rw [hw, hlast]; rfl

end DeepDream
